import Mathlib

/-!
# Verification of the `netipv6zone` fix of `tmc/fix`

A shallow embedding of the `netipv6zone` exemplar fix: a Go AST fragment
sufficient for the transform, the per-node rewrite of
`func netipv6zone(f *ast.File) bool`, and the walk that applies it to every
node of a file.  Helpers coming from the `fix` library itself
(`fix.Imports`, `fix.IsTopName`, `fix.Walk`, the fix registry) are modelled
from the specification, as noted on each definition.
-/

namespace NetFix

/-- The fragment of Go's `ast.Expr` node family that the fix traverses:
identifiers, basic literals (carrying their source token as `value`),
selector expressions `x.sel`, key/value pairs `key: value`, unary
expressions such as `&x`, call expressions, and composite literals
`T{e₁, …}` whose type may be absent (`none`). -/
inductive Expr where
  | ident (name : String) : Expr
  | basicLit (value : String) : Expr
  | selectorExpr (x : Expr) (sel : String) : Expr
  | keyValueExpr (key value : Expr) : Expr
  | unaryExpr (op : String) (x : Expr) : Expr
  | callExpr (fn : Expr) (args : List Expr) : Expr
  | compositeLit (type : Option Expr) (elts : List Expr) : Expr

/-- A Go source file: its imported package paths and the expressions
reachable from its declarations, in source order. -/
structure File where
  imports : List String
  decls : List Expr

/-- `e` is a `*ast.KeyValueExpr` (the type assertion at the top of the
element loop of `netipv6zone`). -/
def Expr.isKV : Expr → Bool
  | .keyValueExpr _ _ => true
  | _ => false

/-- The element-1 deletion test of `netipv6zone`: `e` is a `*ast.BasicLit`
whose `Value` is exactly the token `"0"`. -/
def isZeroLit : Expr → Bool
  | .basicLit v => v == "0"
  | _ => false

/-- Modelled from the spec: `fix.IsTopName` (not under `src/`) — `n` is a
top-level identifier with the given name, used to recognise a
qualified-name reference into the imported dependency. -/
def IsTopName (n : Expr) (name : String) : Bool :=
  match n with
  | .ident s => s == name
  | _ => false

/-- Modelled from the spec: `fix.Imports` (not under `src/`) — the source
unit imports the given dependency path. -/
def Imports (f : File) (path : String) : Bool :=
  f.imports.contains path

/-- The type switch of `netipv6zone`: the composite literal's declared type
is a selector `net.IPAddr`, `net.UDPAddr` or `net.TCPAddr` whose qualifier
is the top-level name `net`. -/
def isNetAddrType : Option Expr → Bool
  | some (.selectorExpr x sel) =>
      IsTopName x "net" && (sel == "IPAddr" || sel == "UDPAddr" || sel == "TCPAddr")
  | _ => false

mutual

/-- The walk of `netipv6zone` from one node down, fused with its callback:
the callback runs at each node in pre-order (`fix.Walk` is modelled from
the spec, §4.1: visit every node, children in structural order), and on a
composite literal of an affected type performs the element loop of the
source: stop at the first key/value element; rewrite position 0 into
`IP: e`; at position 1 delete a literal `"0"` outright and rewrite any
other element into `Port: e`; positions two and beyond fall through the
switch untouched.  The returned flag is the `fixed` flag: set whenever the
loop body runs, i.e. whenever the literal is affected, non-empty, and its
first element is not already a key/value pair; child rewrites are or-ed
in exactly as the shared `fixed` variable accumulates them. -/
def fixExpr : Expr → Expr × Bool
  | .ident n => (.ident n, false)
  | .basicLit v => (.basicLit v, false)
  | .selectorExpr x sel =>
      let r := fixExpr x
      (.selectorExpr r.1 sel, r.2)
  | .keyValueExpr k v =>
      let rk := fixExpr k
      let rv := fixExpr v
      (.keyValueExpr rk.1 rv.1, rk.2 || rv.2)
  | .unaryExpr op x =>
      let r := fixExpr x
      (.unaryExpr op r.1, r.2)
  | .callExpr fn args =>
      let rf := fixExpr fn
      let ra := fixList args
      (.callExpr rf.1 ra.1, rf.2 || ra.2)
  | .compositeLit ty elts =>
      let rt := fixOpt ty
      if isNetAddrType ty then
        let re := fixAffectedElts elts
        (.compositeLit rt.1 re.1, rt.2 || re.2)
      else
        let re := fixList elts
        (.compositeLit rt.1 re.1, rt.2 || re.2)

/-- The element loop of `netipv6zone` on an affected literal's element
list, fused with the walk into the (possibly rewritten) elements.  Mirrors
the source: a key/value element breaks the loop before any rewrite; case 0
wraps the element as `IP: e`; case 1 deletes a `BasicLit` `"0"` and wraps
anything else as `Port: e`; later positions are untouched (the stale
iterations Go performs over the mutated slice only re-test `isKV` and
re-set the already-true flag, so they have no observable effect). -/
def fixAffectedElts : List Expr → List Expr × Bool
  | [] => ([], false)
  | e0 :: rest =>
      if e0.isKV then
        fixList (e0 :: rest)
      else
        let r0 := fixExpr e0
        let hd := Expr.keyValueExpr (.ident "IP") r0.1
        match rest with
        | [] => ([hd], true)
        | e1 :: rest2 =>
            if e1.isKV then
              let rt := fixList (e1 :: rest2)
              (hd :: rt.1, true)
            else if isZeroLit e1 then
              let rt := fixList rest2
              (hd :: rt.1, true)
            else
              let r1 := fixExpr e1
              let rt := fixList rest2
              (hd :: Expr.keyValueExpr (.ident "Port") r1.1 :: rt.1, true)

/-- The walk over a list of sibling nodes, in order. -/
def fixList : List Expr → List Expr × Bool
  | [] => ([], false)
  | e :: es =>
      let r := fixExpr e
      let rs := fixList es
      (r.1 :: rs.1, r.2 || rs.2)

/-- The walk through an optional child (`nil` fields are skipped). -/
def fixOpt : Option Expr → Option Expr × Bool
  | none => (none, false)
  | some e =>
      let r := fixExpr e
      (some r.1, r.2)

end

/-- `func netipv6zone(f *ast.File) bool`, as a pure function returning the
mutated file alongside the `fixed` flag: if the file does not import
`"net"` it returns `false` with the file untouched; otherwise it walks
every node, rewriting affected composite literals. -/
def netipv6zone (f : File) : File × Bool :=
  if !Imports f "net" then (f, false)
  else
    let r := fixList f.decls
    ({ f with decls := r.1 }, r.2)

/-- The qualified type `net.s` as it appears on an affected composite
literal. -/
def netSel (s : String) : Option Expr :=
  some (.selectorExpr (.ident "net") s)

/-- The rewrite of one positional element list as the specification words
it (C1): position 0 becomes a pair keyed by `IP`; position 1 is deleted if
it is the literal zero value and otherwise becomes a pair keyed by `Port`.
Stated independently of the source, to be compared with the transform. -/
def specKeyedRewrite : List Expr → List Expr
  | [] => []
  | [e0] => [.keyValueExpr (.ident "IP") e0]
  | e0 :: e1 :: rest =>
      .keyValueExpr (.ident "IP") e0 ::
        (if isZeroLit e1 then rest else .keyValueExpr (.ident "Port") e1 :: rest)

mutual

/-- Some subterm is a composite literal of an affected type (used to state
the frame property: a tree with no such literal is left unchanged). -/
def hasNetLit : Expr → Bool
  | .ident _ => false
  | .basicLit _ => false
  | .selectorExpr x _ => hasNetLit x
  | .keyValueExpr k v => hasNetLit k || hasNetLit v
  | .unaryExpr _ x => hasNetLit x
  | .callExpr fn args => hasNetLit fn || hasNetLitList args
  | .compositeLit ty elts =>
      isNetAddrType ty || hasNetLitOpt ty || hasNetLitList elts

def hasNetLitList : List Expr → Bool
  | [] => false
  | e :: es => hasNetLit e || hasNetLitList es

def hasNetLitOpt : Option Expr → Bool
  | none => false
  | some e => hasNetLit e

end

mutual

/-- The frame relation for the fix: `OnlyAffected e e'` holds when `e'`
differs from `e` at most in the element lists of composite literals whose
declared type is one of the affected `net` types; every other node keeps
its constructor, its atoms and its child count. -/
inductive OnlyAffected : Expr → Expr → Prop where
  | ident (n : String) : OnlyAffected (.ident n) (.ident n)
  | basicLit (v : String) : OnlyAffected (.basicLit v) (.basicLit v)
  | selector {x x' : Expr} (s : String) :
      OnlyAffected x x' → OnlyAffected (.selectorExpr x s) (.selectorExpr x' s)
  | kv {k k' v v' : Expr} :
      OnlyAffected k k' → OnlyAffected v v' →
      OnlyAffected (.keyValueExpr k v) (.keyValueExpr k' v')
  | unary {x x' : Expr} (op : String) :
      OnlyAffected x x' → OnlyAffected (.unaryExpr op x) (.unaryExpr op x')
  | call {fn fn' : Expr} {args args' : List Expr} :
      OnlyAffected fn fn' → OnlyAffectedList args args' →
      OnlyAffected (.callExpr fn args) (.callExpr fn' args')
  | litOther {ty ty' : Option Expr} {elts elts' : List Expr} :
      isNetAddrType ty = false → OnlyAffectedOpt ty ty' →
      OnlyAffectedList elts elts' →
      OnlyAffected (.compositeLit ty elts) (.compositeLit ty' elts')
  | litAffected {ty : Option Expr} {elts elts' : List Expr} :
      isNetAddrType ty = true →
      OnlyAffected (.compositeLit ty elts) (.compositeLit ty elts')

inductive OnlyAffectedList : List Expr → List Expr → Prop where
  | nil : OnlyAffectedList [] []
  | cons {e e' : Expr} {es es' : List Expr} :
      OnlyAffected e e' → OnlyAffectedList es es' →
      OnlyAffectedList (e :: es) (e' :: es')

inductive OnlyAffectedOpt : Option Expr → Option Expr → Prop where
  | none : OnlyAffectedOpt none none
  | some {e e' : Expr} : OnlyAffected e e' → OnlyAffectedOpt (some e) (some e')

end

mutual

/-- One run of the fix's walk, as a relation: `ExprRw e r` holds when a
run of the walk starting at `e` can produce the rewritten node and flag
`r`.  The rules mirror the rewriting step for step, so that determinism of
the transform is the statement that this relation is a function. -/
inductive ExprRw : Expr → Expr × Bool → Prop where
  | ident (n : String) : ExprRw (.ident n) (.ident n, false)
  | basicLit (v : String) : ExprRw (.basicLit v) (.basicLit v, false)
  | selector {x : Expr} {r : Expr × Bool} (s : String) :
      ExprRw x r → ExprRw (.selectorExpr x s) (.selectorExpr r.1 s, r.2)
  | kv {k v : Expr} {rk rv : Expr × Bool} :
      ExprRw k rk → ExprRw v rv →
      ExprRw (.keyValueExpr k v) (.keyValueExpr rk.1 rv.1, rk.2 || rv.2)
  | unary {x : Expr} {r : Expr × Bool} (op : String) :
      ExprRw x r → ExprRw (.unaryExpr op x) (.unaryExpr op r.1, r.2)
  | call {fn : Expr} {args : List Expr} {rf : Expr × Bool}
      {ra : List Expr × Bool} :
      ExprRw fn rf → ListRw args ra →
      ExprRw (.callExpr fn args) (.callExpr rf.1 ra.1, rf.2 || ra.2)
  | litAffected {ty : Option Expr} {elts : List Expr}
      {rt : Option Expr × Bool} {re : List Expr × Bool} :
      isNetAddrType ty = true → OptRw ty rt → ElemsRw elts re →
      ExprRw (.compositeLit ty elts) (.compositeLit rt.1 re.1, rt.2 || re.2)
  | litOther {ty : Option Expr} {elts : List Expr}
      {rt : Option Expr × Bool} {re : List Expr × Bool} :
      isNetAddrType ty = false → OptRw ty rt → ListRw elts re →
      ExprRw (.compositeLit ty elts) (.compositeLit rt.1 re.1, rt.2 || re.2)

/-- The element loop of an affected literal, as a relation mirroring
`fixAffectedElts`. -/
inductive ElemsRw : List Expr → List Expr × Bool → Prop where
  | nil : ElemsRw [] ([], false)
  | keyedHead {e0 : Expr} {rest : List Expr} {r : List Expr × Bool} :
      e0.isKV = true → ListRw (e0 :: rest) r → ElemsRw (e0 :: rest) r
  | single {e0 : Expr} {r0 : Expr × Bool} :
      e0.isKV = false → ExprRw e0 r0 →
      ElemsRw [e0] ([.keyValueExpr (.ident "IP") r0.1], true)
  | keyedSecond {e0 e1 : Expr} {rest2 : List Expr} {r0 : Expr × Bool}
      {rt : List Expr × Bool} :
      e0.isKV = false → e1.isKV = true → ExprRw e0 r0 →
      ListRw (e1 :: rest2) rt →
      ElemsRw (e0 :: e1 :: rest2)
        (.keyValueExpr (.ident "IP") r0.1 :: rt.1, true)
  | zeroSecond {e0 e1 : Expr} {rest2 : List Expr} {r0 : Expr × Bool}
      {rt : List Expr × Bool} :
      e0.isKV = false → e1.isKV = false → isZeroLit e1 = true →
      ExprRw e0 r0 → ListRw rest2 rt →
      ElemsRw (e0 :: e1 :: rest2)
        (.keyValueExpr (.ident "IP") r0.1 :: rt.1, true)
  | portSecond {e0 e1 : Expr} {rest2 : List Expr} {r0 r1 : Expr × Bool}
      {rt : List Expr × Bool} :
      e0.isKV = false → e1.isKV = false → isZeroLit e1 = false →
      ExprRw e0 r0 → ExprRw e1 r1 → ListRw rest2 rt →
      ElemsRw (e0 :: e1 :: rest2)
        (.keyValueExpr (.ident "IP") r0.1 ::
          .keyValueExpr (.ident "Port") r1.1 :: rt.1, true)

inductive ListRw : List Expr → List Expr × Bool → Prop where
  | nil : ListRw [] ([], false)
  | cons {e : Expr} {es : List Expr} {r : Expr × Bool}
      {rs : List Expr × Bool} :
      ExprRw e r → ListRw es rs → ListRw (e :: es) (r.1 :: rs.1, r.2 || rs.2)

inductive OptRw : Option Expr → Option Expr × Bool → Prop where
  | none : OptRw none (none, false)
  | some {e : Expr} {r : Expr × Bool} :
      ExprRw e r → OptRw (some e) (some r.1, r.2)

end

/-- One run of `netipv6zone` on a file, as a relation built on `ListRw`. -/
inductive FileRw : File → File × Bool → Prop where
  | noImport {f : File} : Imports f "net" = false → FileRw f (f, false)
  | run {f : File} {ds : List Expr} {c : Bool} :
      Imports f "net" = true → ListRw f.decls (ds, c) →
      FileRw f ({ f with decls := ds }, c)

/-- `fix.Fix` as registered by the source file: a name, a date, the
transform, and a description. -/
structure Fix where
  name : String
  date : String
  f : File → File × Bool
  desc : String

/-- `netipv6zoneFix`, the registered fix value of the source file. -/
def netipv6zoneFix : Fix where
  name := "netipv6zone"
  date := "2012-11-26"
  f := netipv6zone
  desc := "Adapt element key to IPAddr, UDPAddr or TCPAddr composite literals.\n\nhttps://codereview.appspot.com/6849045/\n"

/-- Modelled from the spec: the registry's `select` operation (the fix
registry is not under `src/`) — given the registered fixes in their
`(date, name)` order and a requested set of names, either every name is
registered and the registered order restricted to the requested names is
returned, or the operation fails with `UnknownFixError` carrying every
unrecognized name (the `Except.error` payload). -/
def selectFixes (registered : List Fix) (names : List String) :
    Except (List String) (List Fix) :=
  let unknown := names.filter fun n => !registered.any fun fx => fx.name == n
  if unknown.isEmpty then
    .ok (registered.filter fun fx => names.contains fx.name)
  else
    .error unknown

/-- The input file of test case `netipv6zone.0`, with the identifier names
as parameters. -/
def exampleIn (ip1 ip2 ip3 ip4 ip5 p : String) : File where
  imports := ["net"]
  decls :=
    [ .unaryExpr "&" (.compositeLit (netSel "IPAddr") [.ident ip1]),
      .callExpr (.ident "sub")
        [.unaryExpr "&"
          (.compositeLit (netSel "UDPAddr") [.ident ip2, .basicLit "12345"])],
      .unaryExpr "&"
        (.compositeLit (netSel "TCPAddr")
          [.keyValueExpr (.ident "IP") (.ident ip3),
           .keyValueExpr (.ident "Port") (.basicLit "54321")]),
      .unaryExpr "&"
        (.compositeLit (netSel "TCPAddr") [.ident ip4, .basicLit "0"]),
      .basicLit "1234",
      .unaryExpr "&"
        (.compositeLit (netSel "TCPAddr") [.ident ip4, .ident p]),
      .unaryExpr "&" (.compositeLit (netSel "TCPAddr") [.ident ip5]) ]

/-- The expected output of test case `netipv6zone.0`. -/
def exampleOut (ip1 ip2 ip3 ip4 ip5 p : String) : File where
  imports := ["net"]
  decls :=
    [ .unaryExpr "&"
        (.compositeLit (netSel "IPAddr")
          [.keyValueExpr (.ident "IP") (.ident ip1)]),
      .callExpr (.ident "sub")
        [.unaryExpr "&"
          (.compositeLit (netSel "UDPAddr")
            [.keyValueExpr (.ident "IP") (.ident ip2),
             .keyValueExpr (.ident "Port") (.basicLit "12345")])],
      .unaryExpr "&"
        (.compositeLit (netSel "TCPAddr")
          [.keyValueExpr (.ident "IP") (.ident ip3),
           .keyValueExpr (.ident "Port") (.basicLit "54321")]),
      .unaryExpr "&"
        (.compositeLit (netSel "TCPAddr")
          [.keyValueExpr (.ident "IP") (.ident ip4)]),
      .basicLit "1234",
      .unaryExpr "&"
        (.compositeLit (netSel "TCPAddr")
          [.keyValueExpr (.ident "IP") (.ident ip4),
           .keyValueExpr (.ident "Port") (.ident p)]),
      .unaryExpr "&"
        (.compositeLit (netSel "TCPAddr")
          [.keyValueExpr (.ident "IP") (.ident ip5)]) ]

/-- A file whose single affected literal mixes a positional element with a
key/value element: `net.IPAddr{a, Port: 5}`. -/
def mixedLitFile : File where
  imports := ["net"]
  decls :=
    [ .compositeLit (netSel "IPAddr")
        [.ident "a", .keyValueExpr (.ident "Port") (.basicLit "5")] ]

/-! ## Basic computation lemmas -/

theorem fixExpr_ident (n : String) : fixExpr (.ident n) = (.ident n, false) := by
  simp [fixExpr]

theorem fixOpt_ident_sel (m s : String) :
    fixOpt (some (.selectorExpr (.ident m) s))
      = (some (.selectorExpr (.ident m) s), false) := by
  simp [fixOpt, fixExpr]

theorem netAddrType_shape {ty : Option Expr} (h : isNetAddrType ty = true) :
    ∃ s, ty = netSel s := by
  unfold isNetAddrType at h
  split at h
  · rename_i x sel
    unfold IsTopName at h
    split at h
    · rename_i m
      simp only [Bool.and_eq_true, beq_iff_eq] at h
      exact ⟨sel, by simp [netSel, h.1]⟩
    · simp at h
  · simp at h

theorem netAddr_fixOpt {ty : Option Expr} (h : isNetAddrType ty = true) :
    fixOpt ty = (ty, false) := by
  obtain ⟨s, rfl⟩ := netAddrType_shape h
  simpa [netSel] using fixOpt_ident_sel "net" s

theorem IsTopName_fixExpr (x : Expr) (nm : String) :
    IsTopName (fixExpr x).1 nm = IsTopName x nm := by
  cases x <;> simp [fixExpr, IsTopName]
  next ty elts =>
    cases h : isNetAddrType ty <;> simp [h, IsTopName]

theorem isNetAddrType_fixOpt (ty : Option Expr) :
    isNetAddrType (fixOpt ty).1 = isNetAddrType ty := by
  cases ty with
  | none => simp [fixOpt]
  | some e =>
    cases e with
    | selectorExpr x sel => simp [fixOpt, fixExpr, isNetAddrType, IsTopName_fixExpr]
    | compositeLit t es =>
      simp only [fixOpt, fixExpr]
      split <;> simp [isNetAddrType]
    | ident n => simp [fixOpt, fixExpr, isNetAddrType]
    | basicLit v => simp [fixOpt, fixExpr, isNetAddrType]
    | keyValueExpr k v => simp [fixOpt, fixExpr, isNetAddrType]
    | unaryExpr op x => simp [fixOpt, fixExpr, isNetAddrType]
    | callExpr fn args => simp [fixOpt, fixExpr, isNetAddrType]

theorem isKV_fixExpr (e : Expr) : (fixExpr e).1.isKV = e.isKV := by
  cases e <;> simp [fixExpr, Expr.isKV]
  next ty elts => cases h : isNetAddrType ty <;> simp [h, Expr.isKV]

theorem isKV_kv (a b : Expr) : (Expr.keyValueExpr a b).isKV = true := rfl

theorem fixList_fixpoint {l : List Expr} (h : ∀ e ∈ l, fixExpr e = (e, false)) :
    fixList l = (l, false) := by
  induction l with
  | nil => simp [fixList]
  | cons e es ih =>
    simp [fixList, h e (by simp), ih fun x hx => h x (by simp [hx])]

/-! ## The changed flag is honest: a run leaves the tree unchanged exactly
when it reports `false` -/

theorem fix_unchanged_iff :
    (∀ e : Expr, (fixExpr e).1 = e ↔ (fixExpr e).2 = false) ∧
    (∀ l : List Expr, (fixAffectedElts l).1 = l ↔ (fixAffectedElts l).2 = false) ∧
    (∀ l : List Expr, (fixList l).1 = l ↔ (fixList l).2 = false) ∧
    (∀ o : Option Expr, (fixOpt o).1 = o ↔ (fixOpt o).2 = false) := by
  refine fixExpr.mutual_induct
    (fun e => (fixExpr e).1 = e ↔ (fixExpr e).2 = false)
    (fun l => (fixAffectedElts l).1 = l ↔ (fixAffectedElts l).2 = false)
    (fun l => (fixList l).1 = l ↔ (fixList l).2 = false)
    (fun o => (fixOpt o).1 = o ↔ (fixOpt o).2 = false)
    ?_ ?_ ?_ ?_ ?_ ?_ ?_ ?_ ?_ ?_ ?_ ?_ ?_ ?_ ?_ ?_ ?_ ?_
  · intro n; simp [fixExpr]
  · intro v; simp [fixExpr]
  · intro x s ih; simp [fixExpr]; rw [ih]
  · intro k v ihk ihv; simp [fixExpr]; rw [ihk, ihv]
  · intro op x ih; simp [fixExpr]; rw [ih]
  · intro fn args ihf iha; simp [fixExpr]; rw [ihf, iha]
  · intro ty elts h ih4 ih2
    simp [fixExpr, h, netAddr_fixOpt h]; rw [ih2]
  · intro ty elts h ih4 ih3
    simp only [Bool.not_eq_true] at h
    simp [fixExpr, h]; rw [ih4, ih3]
  · simp [fixAffectedElts]
  · intro e0 rest h ih; simp [fixAffectedElts, h]; exact ih
  · intro e0 h ih
    simp only [Bool.not_eq_true] at h
    simp [fixAffectedElts, h]
    intro heq
    rw [← heq] at h
    simp [Expr.isKV] at h
  · intro e0 h e1 rest2 h1 ih0 ih3
    simp only [Bool.not_eq_true] at h
    simp [fixAffectedElts, h, h1]
    intro heq
    rw [← heq] at h
    simp [Expr.isKV] at h
  · intro e0 h e1 rest2 h1 hz ih0 ih3
    simp only [Bool.not_eq_true] at h h1
    simp [fixAffectedElts, h, h1, hz]
    intro heq
    rw [← heq] at h
    simp [Expr.isKV] at h
  · intro e0 h e1 rest2 h1 hz ih0 ih1 ih3
    simp only [Bool.not_eq_true] at h h1 hz
    simp [fixAffectedElts, h, h1, hz]
    intro heq
    rw [← heq] at h
    simp [Expr.isKV] at h
  · simp [fixList]
  · intro e es ihe ihes; simp [fixList]; rw [ihe, ihes]
  · simp [fixOpt]
  · intro e ih; simp [fixOpt]; rw [ih]

/-! ## Idempotence: a second run changes nothing and reports `false` -/

theorem fix_idem :
    (∀ e : Expr, fixExpr (fixExpr e).1 = ((fixExpr e).1, false)) ∧
    (∀ l : List Expr, fixAffectedElts (fixAffectedElts l).1 = ((fixAffectedElts l).1, false)) ∧
    (∀ l : List Expr, fixList (fixList l).1 = ((fixList l).1, false)) ∧
    (∀ o : Option Expr, fixOpt (fixOpt o).1 = ((fixOpt o).1, false)) := by
  refine fixExpr.mutual_induct
    (fun e => fixExpr (fixExpr e).1 = ((fixExpr e).1, false))
    (fun l => fixAffectedElts (fixAffectedElts l).1 = ((fixAffectedElts l).1, false))
    (fun l => fixList (fixList l).1 = ((fixList l).1, false))
    (fun o => fixOpt (fixOpt o).1 = ((fixOpt o).1, false))
    ?_ ?_ ?_ ?_ ?_ ?_ ?_ ?_ ?_ ?_ ?_ ?_ ?_ ?_ ?_ ?_ ?_ ?_
  · intro n; simp [fixExpr]
  · intro v; simp [fixExpr]
  · intro x s ih; simp [fixExpr, ih]
  · intro k v ihk ihv; simp [fixExpr, ihk, ihv]
  · intro op x ih; simp [fixExpr, ih]
  · intro fn args ihf iha; simp [fixExpr, ihf, iha]
  · intro ty elts h ih4 ih2
    simp [fixExpr, h, netAddr_fixOpt h, ih2]
  · intro ty elts h ih4 ih3
    simp only [Bool.not_eq_true] at h
    have h2 : isNetAddrType (fixOpt ty).1 = false := by rw [isNetAddrType_fixOpt, h]
    simp [fixExpr, h, h2, ih4, ih3]
  · simp [fixAffectedElts]
  · intro e0 rest h ih
    have hkv : ((fixExpr e0).1).isKV = true := by rw [isKV_fixExpr, h]
    simp only [fixAffectedElts, h, if_true]
    simp only [fixList] at ih ⊢
    simp only [fixAffectedElts, hkv, if_true]
    simp only [fixList]
    exact ih
  · intro e0 h ih
    simp only [Bool.not_eq_true] at h
    simp [fixAffectedElts, fixList, fixExpr, isKV_kv, h, ih]
  · intro e0 h e1 rest2 h1 ih0 ih3
    simp only [Bool.not_eq_true] at h
    have hkv1 : ((fixExpr e1).1).isKV = true := by rw [isKV_fixExpr, h1]
    simp only [fixAffectedElts, fixList, h, h1, if_true, if_false, Bool.false_eq_true,
      isKV_kv]
    simp only [fixList] at ih3
    simp only [Prod.mk.injEq, List.cons.injEq, Bool.or_eq_false_iff] at ih3
    simp [fixExpr, fixList, isKV_kv, ih0, ih3.1.1, ih3.1.2, ih3.2.1, ih3.2.2]
  · intro e0 h e1 rest2 h1 hz ih0 ih3
    simp only [Bool.not_eq_true] at h h1
    simp [fixAffectedElts, fixList, fixExpr, isKV_kv, h, h1, hz, ih0, ih3]
  · intro e0 h e1 rest2 h1 hz ih0 ih1 ih3
    simp only [Bool.not_eq_true] at h h1 hz
    simp [fixAffectedElts, fixList, fixExpr, isKV_kv, h, h1, hz, ih0, ih1, ih3]
  · simp [fixList]
  · intro e es ihe ihes; simp [fixList, ihe, ihes]
  · simp [fixOpt]
  · intro e ih; simp [fixOpt, ih]

/-! ## Frame: all changes are confined to affected composite literals -/

theorem fix_frame :
    (∀ e : Expr, OnlyAffected e (fixExpr e).1) ∧
    (∀ _l : List Expr, True) ∧
    (∀ l : List Expr, OnlyAffectedList l (fixList l).1) ∧
    (∀ o : Option Expr, OnlyAffectedOpt o (fixOpt o).1) := by
  refine fixExpr.mutual_induct
    (fun e => OnlyAffected e (fixExpr e).1)
    (fun _l => True)
    (fun l => OnlyAffectedList l (fixList l).1)
    (fun o => OnlyAffectedOpt o (fixOpt o).1)
    ?_ ?_ ?_ ?_ ?_ ?_ ?_ ?_ ?_ ?_ ?_ ?_ ?_ ?_ ?_ ?_ ?_ ?_
  · intro n; simpa [fixExpr] using OnlyAffected.ident n
  · intro v; simpa [fixExpr] using OnlyAffected.basicLit v
  · intro x s ih; simpa [fixExpr] using OnlyAffected.selector s ih
  · intro k v ihk ihv; simpa [fixExpr] using OnlyAffected.kv ihk ihv
  · intro op x ih; simpa [fixExpr] using OnlyAffected.unary op ih
  · intro fn args ihf iha; simpa [fixExpr] using OnlyAffected.call ihf iha
  · intro ty elts h _ih4 _ih2
    have := netAddr_fixOpt h
    simpa [fixExpr, h, this] using
      @OnlyAffected.litAffected ty elts (fixAffectedElts elts).1 h
  · intro ty elts h ih4 ih3
    simp only [Bool.not_eq_true] at h
    simpa [fixExpr, h] using OnlyAffected.litOther h ih4 ih3
  · trivial
  · intro _ _ _ _; trivial
  · intro _ _ _; trivial
  · intro _ _ _ _ _ _ _; trivial
  · intro _ _ _ _ _ _ _ _; trivial
  · intro _ _ _ _ _ _ _ _ _; trivial
  · simpa [fixList] using OnlyAffectedList.nil
  · intro e es ihe ihes; simpa [fixList] using OnlyAffectedList.cons ihe ihes
  · simpa [fixOpt] using OnlyAffectedOpt.none
  · intro e ih; simpa [fixOpt] using OnlyAffectedOpt.some ih

theorem OnlyAffected_refl :
    (∀ e : Expr, OnlyAffected e e) ∧
    (∀ _l : List Expr, True) ∧
    (∀ l : List Expr, OnlyAffectedList l l) ∧
    (∀ o : Option Expr, OnlyAffectedOpt o o) := by
  refine fixExpr.mutual_induct
    (fun e => OnlyAffected e e)
    (fun _l => True)
    (fun l => OnlyAffectedList l l)
    (fun o => OnlyAffectedOpt o o)
    ?_ ?_ ?_ ?_ ?_ ?_ ?_ ?_ ?_ ?_ ?_ ?_ ?_ ?_ ?_ ?_ ?_ ?_
  · exact fun n => OnlyAffected.ident n
  · exact fun v => OnlyAffected.basicLit v
  · exact fun x s ih => OnlyAffected.selector s ih
  · exact fun k v ihk ihv => OnlyAffected.kv ihk ihv
  · exact fun op x ih => OnlyAffected.unary op ih
  · exact fun fn args ihf iha => OnlyAffected.call ihf iha
  · exact fun ty elts h _ _ => OnlyAffected.litAffected h
  · intro ty elts h ih4 ih3
    simp only [Bool.not_eq_true] at h
    exact OnlyAffected.litOther h ih4 ih3
  · trivial
  · intro _ _ _ _; trivial
  · intro _ _ _; trivial
  · intro _ _ _ _ _ _ _; trivial
  · intro _ _ _ _ _ _ _ _; trivial
  · intro _ _ _ _ _ _ _ _ _; trivial
  · exact OnlyAffectedList.nil
  · exact fun e es ihe ihes => OnlyAffectedList.cons ihe ihes
  · exact OnlyAffectedOpt.none
  · exact fun e ih => OnlyAffectedOpt.some ih

/-! ## A tree containing no affected literal is returned untouched -/

theorem hasNetLit_false_fix :
    (∀ e : Expr, hasNetLit e = false → fixExpr e = (e, false)) ∧
    (∀ _l : List Expr, True) ∧
    (∀ l : List Expr, hasNetLitList l = false → fixList l = (l, false)) ∧
    (∀ o : Option Expr, hasNetLitOpt o = false → fixOpt o = (o, false)) := by
  refine fixExpr.mutual_induct
    (fun e => hasNetLit e = false → fixExpr e = (e, false))
    (fun _l => True)
    (fun l => hasNetLitList l = false → fixList l = (l, false))
    (fun o => hasNetLitOpt o = false → fixOpt o = (o, false))
    ?_ ?_ ?_ ?_ ?_ ?_ ?_ ?_ ?_ ?_ ?_ ?_ ?_ ?_ ?_ ?_ ?_ ?_
  · intro n _; simp [fixExpr]
  · intro v _; simp [fixExpr]
  · intro x s ih h
    simp only [hasNetLit] at h
    simp [fixExpr, ih h]
  · intro k v ihk ihv h
    simp only [hasNetLit, Bool.or_eq_false_iff] at h
    simp [fixExpr, ihk h.1, ihv h.2]
  · intro op x ih h
    simp only [hasNetLit] at h
    simp [fixExpr, ih h]
  · intro fn args ihf iha h
    simp only [hasNetLit, Bool.or_eq_false_iff] at h
    simp [fixExpr, ihf h.1, iha h.2]
  · intro ty elts h _ih4 _ih2 hn
    simp only [hasNetLit, Bool.or_eq_false_iff] at hn
    rw [h] at hn
    exact absurd hn.1.1 (by simp)
  · intro ty elts h ih4 ih3 hn
    simp only [Bool.not_eq_true] at h
    simp only [hasNetLit, Bool.or_eq_false_iff] at hn
    simp [fixExpr, h, ih4 hn.1.2, ih3 hn.2]
  · trivial
  · intro _ _ _ _; trivial
  · intro _ _ _; trivial
  · intro _ _ _ _ _ _ _; trivial
  · intro _ _ _ _ _ _ _ _; trivial
  · intro _ _ _ _ _ _ _ _ _; trivial
  · intro _; simp [fixList]
  · intro e es ihe ihes h
    simp only [hasNetLitList, Bool.or_eq_false_iff] at h
    simp [fixList, ihe h.1, ihes h.2]
  · intro _; simp [fixOpt]
  · intro e ih h
    simp only [hasNetLitOpt] at h
    simp [fixOpt, ih h]

/-! ## The rewrite relation: every run realizes it, and it is a function -/

theorem rw_total :
    (∀ e : Expr, ExprRw e (fixExpr e)) ∧
    (∀ l : List Expr, ElemsRw l (fixAffectedElts l)) ∧
    (∀ l : List Expr, ListRw l (fixList l)) ∧
    (∀ o : Option Expr, OptRw o (fixOpt o)) := by
  refine fixExpr.mutual_induct
    (fun e => ExprRw e (fixExpr e))
    (fun l => ElemsRw l (fixAffectedElts l))
    (fun l => ListRw l (fixList l))
    (fun o => OptRw o (fixOpt o))
    ?_ ?_ ?_ ?_ ?_ ?_ ?_ ?_ ?_ ?_ ?_ ?_ ?_ ?_ ?_ ?_ ?_ ?_
  · intro n; simpa [fixExpr] using ExprRw.ident n
  · intro v; simpa [fixExpr] using ExprRw.basicLit v
  · intro x s ih; simpa [fixExpr] using ExprRw.selector s ih
  · intro k v ihk ihv; simpa [fixExpr] using ExprRw.kv ihk ihv
  · intro op x ih; simpa [fixExpr] using ExprRw.unary op ih
  · intro fn args ihf iha; simpa [fixExpr] using ExprRw.call ihf iha
  · intro ty elts h ih4 ih2
    simpa [fixExpr, h] using ExprRw.litAffected h ih4 ih2
  · intro ty elts h ih4 ih3
    simp only [Bool.not_eq_true] at h
    simpa [fixExpr, h] using ExprRw.litOther h ih4 ih3
  · simpa [fixAffectedElts] using ElemsRw.nil
  · intro e0 rest h ih
    simpa [fixAffectedElts, h] using ElemsRw.keyedHead h ih
  · intro e0 h ih
    simp only [Bool.not_eq_true] at h
    simpa [fixAffectedElts, h] using ElemsRw.single h ih
  · intro e0 h e1 rest2 h1 ih0 ih3
    simp only [Bool.not_eq_true] at h
    simpa [fixAffectedElts, h, h1] using ElemsRw.keyedSecond h h1 ih0 ih3
  · intro e0 h e1 rest2 h1 hz ih0 ih3
    simp only [Bool.not_eq_true] at h h1
    simpa [fixAffectedElts, h, h1, hz] using ElemsRw.zeroSecond h h1 hz ih0 ih3
  · intro e0 h e1 rest2 h1 hz ih0 ih1 ih3
    simp only [Bool.not_eq_true] at h h1 hz
    simpa [fixAffectedElts, h, h1, hz] using ElemsRw.portSecond h h1 hz ih0 ih1 ih3
  · simpa [fixList] using ListRw.nil
  · intro e es ihe ihes; simpa [fixList] using ListRw.cons ihe ihes
  · simpa [fixOpt] using OptRw.none
  · intro e ih; simpa [fixOpt] using OptRw.some ih

theorem rw_fun_aux : ∀ n : Nat,
    (∀ e : Expr, sizeOf e ≤ n → ∀ r, ExprRw e r → r = fixExpr e) ∧
    (∀ l : List Expr, sizeOf l ≤ n → ∀ r, ElemsRw l r → r = fixAffectedElts l) ∧
    (∀ l : List Expr, sizeOf l ≤ n → ∀ r, ListRw l r → r = fixList l) ∧
    (∀ o : Option Expr, sizeOf o ≤ n → ∀ r, OptRw o r → r = fixOpt o) := by
  intro n
  induction n with
  | zero =>
    refine ⟨fun e he => ?_, fun l hl => ?_, fun l hl => ?_, fun o ho => ?_⟩
    · cases e <;> simp at he
    · cases l <;> simp at hl
    · cases l <;> simp at hl
    · cases o <;> simp at ho
  | succ n ih =>
    obtain ⟨ihe, ihm, ihl, iho⟩ := ih
    have hL : ∀ l : List Expr, sizeOf l ≤ n + 1 → ∀ r, ListRw l r → r = fixList l := by
      intro l hl r h
      cases h with
      | nil => simp [fixList]
      | cons hx hxs =>
        rename_i e es rx rs
        simp only [List.cons.sizeOf_spec] at hl
        have h1 := ihe e (by omega) _ hx
        have h2 := ihl es (by omega) _ hxs
        simp [fixList, ← h1, ← h2]
    have hO : ∀ o : Option Expr, sizeOf o ≤ n + 1 → ∀ r, OptRw o r → r = fixOpt o := by
      intro o ho r h
      cases h with
      | none => simp [fixOpt]
      | some hx =>
        rename_i e rx
        simp only [Option.some.sizeOf_spec] at ho
        have h1 := ihe e (by omega) _ hx
        simp [fixOpt, ← h1]
    have hM : ∀ l : List Expr, sizeOf l ≤ n + 1 → ∀ r, ElemsRw l r → r = fixAffectedElts l := by
      intro l hl r h
      cases h with
      | nil => simp [fixAffectedElts]
      | keyedHead hkv hrest =>
        rename_i e0 rest
        have h1 := hL _ hl _ hrest
        simp [fixAffectedElts, hkv, ← h1]
      | single hkv hx =>
        rename_i e0 r0
        simp only [List.cons.sizeOf_spec] at hl
        have h1 := ihe e0 (by omega) _ hx
        simp [fixAffectedElts, hkv, ← h1]
      | keyedSecond hkv hkv1 hx hrest =>
        rename_i e0 e1 rest2 r0 rt
        simp only [List.cons.sizeOf_spec] at hl
        have h1 := ihe e0 (by omega) _ hx
        have h2 := hL (e1 :: rest2) (by simp; omega) _ hrest
        simp [fixAffectedElts, hkv, hkv1, ← h1, ← h2]
      | zeroSecond hkv hkv1 hz hx hrest =>
        rename_i e0 e1 rest2 r0 rt
        simp only [List.cons.sizeOf_spec] at hl
        have h1 := ihe e0 (by omega) _ hx
        have h2 := ihl rest2 (by omega) _ hrest
        simp [fixAffectedElts, hkv, hkv1, hz, ← h1, ← h2]
      | portSecond hkv hkv1 hz hx hx1 hrest =>
        rename_i e0 e1 rest2 r0 r1 rt
        simp only [List.cons.sizeOf_spec] at hl
        have h1 := ihe e0 (by omega) _ hx
        have h2 := ihe e1 (by omega) _ hx1
        have h3 := ihl rest2 (by omega) _ hrest
        simp [fixAffectedElts, hkv, hkv1, hz, ← h1, ← h2, ← h3]
    have hE : ∀ e : Expr, sizeOf e ≤ n + 1 → ∀ r, ExprRw e r → r = fixExpr e := by
      intro e he r h
      cases h with
      | ident n => simp [fixExpr]
      | basicLit v => simp [fixExpr]
      | selector s hx =>
        rename_i x rx
        simp only [Expr.selectorExpr.sizeOf_spec] at he
        have h1 := ihe x (by omega) _ hx
        simp [fixExpr, ← h1]
      | kv hk hv =>
        rename_i k v rk rv
        simp only [Expr.keyValueExpr.sizeOf_spec] at he
        have h1 := ihe k (by omega) _ hk
        have h2 := ihe v (by omega) _ hv
        simp [fixExpr, ← h1, ← h2]
      | unary op hx =>
        rename_i x rx
        simp only [Expr.unaryExpr.sizeOf_spec] at he
        have h1 := ihe x (by omega) _ hx
        simp [fixExpr, ← h1]
      | call hf ha =>
        rename_i fn args rf ra
        simp only [Expr.callExpr.sizeOf_spec] at he
        have h1 := ihe fn (by omega) _ hf
        have h2 := ihl args (by omega) _ ha
        simp [fixExpr, ← h1, ← h2]
      | litAffected hty ht hes =>
        rename_i ty elts rt re
        simp only [Expr.compositeLit.sizeOf_spec] at he
        have h1 := iho ty (by omega) _ ht
        have h2 := ihm elts (by omega) _ hes
        simp [fixExpr, hty, ← h1, ← h2]
      | litOther hty ht hes =>
        rename_i ty elts rt re
        simp only [Expr.compositeLit.sizeOf_spec] at he
        have h1 := iho ty (by omega) _ ht
        have h2 := ihl elts (by omega) _ hes
        simp [fixExpr, hty, ← h1, ← h2]
    exact ⟨hE, hM, hL, hO⟩

theorem ExprRw_function {e : Expr} {r : Expr × Bool} (h : ExprRw e r) :
    r = fixExpr e :=
  (rw_fun_aux (sizeOf e)).1 e le_rfl r h

theorem ListRw_function {l : List Expr} {r : List Expr × Bool} (h : ListRw l r) :
    r = fixList l :=
  (rw_fun_aux (sizeOf l)).2.2.1 l le_rfl r h

theorem FileRw_total (f : File) : FileRw f (netipv6zone f) := by
  cases hI : Imports f "net" with
  | false => simpa [netipv6zone, hI] using FileRw.noImport hI
  | true =>
    have h := @FileRw.run f (fixList f.decls).1 (fixList f.decls).2 hI
      (by simpa using rw_total.2.2.1 f.decls)
    simpa [netipv6zone, hI] using h

theorem FileRw_function {f : File} {r : File × Bool} (h : FileRw f r) :
    r = netipv6zone f := by
  cases h with
  | noImport hI => simp [netipv6zone, hI]
  | run hI hl =>
    rename_i ds c
    have := ListRw_function hl
    have hds : ds = (fixList f.decls).1 := by rw [← this]
    have hc : c = (fixList f.decls).2 := by rw [← this]
    simp [netipv6zone, hI, hds, hc]

/-! ## Claim theorems -/

theorem file_update_eq (f : File) (d : List Expr) :
    ({ f with decls := d } = f) ↔ d = f.decls := by
  cases f
  simp

/-- C2: for every input file, the `netipv6zone` transform returns `true` if
and only if it mutated the AST it was given — the changed flag is honest. -/
theorem netipv6zone_changed_iff_mutated (f : File) :
    (netipv6zone f).2 = true ↔ (netipv6zone f).1 ≠ f := by
  cases hI : Imports f "net" with
  | false => simp [netipv6zone, hI]
  | true =>
    have h := fix_unchanged_iff.2.2.1 f.decls
    simp only [netipv6zone, hI, Bool.not_true, Bool.false_eq_true, if_false, ne_eq,
      file_update_eq]
    rw [h]
    simp

/-- C4: the fix is idempotent — running the transform on the output of a
previous run mutates nothing and returns `false`. -/
theorem netipv6zone_idem (f : File) :
    netipv6zone (netipv6zone f).1 = ((netipv6zone f).1, false) := by
  cases hI : Imports f "net" with
  | false => simp [netipv6zone, hI]
  | true =>
    have hI2 : Imports { f with decls := (fixList f.decls).1 } "net" = true := hI
    simp [netipv6zone, hI, hI2, fix_idem.2.2.1]

/-- C5: a file that does not import `"net"` is returned untouched with the
flag `false`. -/
theorem netipv6zone_no_import (f : File) (h : Imports f "net" = false) :
    netipv6zone f = (f, false) := by
  simp [netipv6zone, h]

/-- Witness for C5 at a concrete file with no imports. -/
theorem netipv6zone_no_import_witness :
    Imports ⟨[], [.ident "x"]⟩ "net" = false ∧
      netipv6zone ⟨[], [.ident "x"]⟩ = (⟨[], [.ident "x"]⟩, false) :=
  ⟨by simp [Imports], netipv6zone_no_import _ (by simp [Imports])⟩

theorem netAddr_name {s : String}
    (hs : s = "IPAddr" ∨ s = "UDPAddr" ∨ s = "TCPAddr") :
    isNetAddrType (netSel s) = true := by
  rcases hs with rfl | rfl | rfl <;> simp [isNetAddrType, netSel, IsTopName]

/-- C1: on a file importing `"net"`, every all-positional composite literal
of type `net.IPAddr`, `net.UDPAddr` or `net.TCPAddr` is rewritten as the
spec words it (`specKeyedRewrite`): position 0 becomes `IP:`-keyed,
position 1 is deleted when it is the literal zero and becomes
`Port:`-keyed otherwise; in particular the five example literals of the
spec rewrite as listed (test case `netipv6zone.0`). -/
theorem netipv6zone_keyed_rewrite :
    (∀ s, (s = "IPAddr" ∨ s = "UDPAddr" ∨ s = "TCPAddr") →
      ∀ elts : List Expr, elts ≠ [] →
        (∀ e ∈ elts, e.isKV = false) →
        (∀ e ∈ elts, fixExpr e = (e, false)) →
        fixExpr (.compositeLit (netSel s) elts)
          = (.compositeLit (netSel s) (specKeyedRewrite elts), true)) ∧
    (∀ ip1 ip2 ip3 ip4 ip5 p : String,
      netipv6zone (exampleIn ip1 ip2 ip3 ip4 ip5 p)
        = (exampleOut ip1 ip2 ip3 ip4 ip5 p, true)) := by
  constructor
  · intro s hs elts hne hkv hfix
    have hty := netAddr_name hs
    have hot := netAddr_fixOpt hty
    cases elts with
    | nil => exact absurd rfl hne
    | cons e0 rest =>
      have h0 : e0.isKV = false := hkv e0 (by simp)
      have hf0 : fixExpr e0 = (e0, false) := hfix e0 (by simp)
      cases rest with
      | nil =>
        simp [fixExpr, hty, hot, fixAffectedElts, h0, hf0, specKeyedRewrite]
      | cons e1 rest2 =>
        have h1 : e1.isKV = false := hkv e1 (by simp)
        have hf1 : fixExpr e1 = (e1, false) := hfix e1 (by simp)
        have hrest : fixList rest2 = (rest2, false) :=
          fixList_fixpoint fun e he => hfix e (by simp [he])
        cases hz : isZeroLit e1 with
        | true =>
          simp [fixExpr, hty, hot, fixAffectedElts, h0, h1, hz, hf0, hrest,
            specKeyedRewrite]
        | false =>
          simp [fixExpr, hty, hot, fixAffectedElts, h0, h1, hz, hf0, hf1, hrest,
            specKeyedRewrite]
  · intro ip1 ip2 ip3 ip4 ip5 p
    simp [netipv6zone, Imports, exampleIn, exampleOut, netSel, fixList, fixExpr,
      fixOpt, fixAffectedElts, isNetAddrType, IsTopName, isZeroLit, Expr.isKV]

/-- Witness for C1: the rule applied to `net.IPAddr{a, 7}`, and the example
file at concrete identifier names. -/
theorem netipv6zone_keyed_rewrite_witness :
    fixExpr (.compositeLit (netSel "IPAddr") [.ident "a", .basicLit "7"])
      = (.compositeLit (netSel "IPAddr")
          (specKeyedRewrite [.ident "a", .basicLit "7"]), true) ∧
    netipv6zone (exampleIn "ip1" "ip2" "ip3" "ip4" "ip5" "p")
      = (exampleOut "ip1" "ip2" "ip3" "ip4" "ip5" "p", true) :=
  ⟨netipv6zone_keyed_rewrite.1 "IPAddr" (Or.inl rfl) _ (by simp)
      (by simp [Expr.isKV]) (by simp [fixExpr]),
    netipv6zone_keyed_rewrite.2 "ip1" "ip2" "ip3" "ip4" "ip5" "p"⟩

/-- C9: on an affected all-positional literal with three or more elements,
only positions 0 and 1 are rewritten, every later element is kept
unchanged in place, and the transform still reports `true`. -/
theorem netipv6zone_later_positions_kept :
    ∀ s, (s = "IPAddr" ∨ s = "UDPAddr" ∨ s = "TCPAddr") →
    ∀ (e0 e1 : Expr) (rest : List Expr), rest ≠ [] →
      e0.isKV = false → e1.isKV = false → (∀ e ∈ rest, e.isKV = false) →
      fixExpr e0 = (e0, false) → fixExpr e1 = (e1, false) →
      (∀ e ∈ rest, fixExpr e = (e, false)) →
      fixExpr (.compositeLit (netSel s) (e0 :: e1 :: rest))
        = (.compositeLit (netSel s)
            (.keyValueExpr (.ident "IP") e0 ::
              (if isZeroLit e1 then rest
               else .keyValueExpr (.ident "Port") e1 :: rest)), true) := by
  intro s hs e0 e1 rest _hne h0 h1 _hkv hf0 hf1 hfix
  have hty := netAddr_name hs
  have hot := netAddr_fixOpt hty
  have hrest : fixList rest = (rest, false) := fixList_fixpoint hfix
  cases hz : isZeroLit e1 with
  | true => simp [fixExpr, hty, hot, fixAffectedElts, h0, h1, hz, hf0, hrest]
  | false => simp [fixExpr, hty, hot, fixAffectedElts, h0, h1, hz, hf0, hf1, hrest]

/-- Witness for C9: `net.UDPAddr{a, q, c, d}` keeps `c, d` unchanged. -/
theorem netipv6zone_later_positions_kept_witness :
    fixExpr (.compositeLit (netSel "UDPAddr")
        [.ident "a", .ident "q", .ident "c", .ident "d"])
      = (.compositeLit (netSel "UDPAddr")
          (.keyValueExpr (.ident "IP") (.ident "a") ::
            (if isZeroLit (.ident "q") then [.ident "c", .ident "d"]
             else .keyValueExpr (.ident "Port") (.ident "q") ::
               [.ident "c", .ident "d"])), true) :=
  netipv6zone_later_positions_kept "UDPAddr" (Or.inr (Or.inl rfl))
    (.ident "a") (.ident "q") [.ident "c", .ident "d"] (by simp)
    (by simp [Expr.isKV]) (by simp [Expr.isKV]) (by simp [Expr.isKV])
    (by simp [fixExpr]) (by simp [fixExpr]) (by simp [fixExpr])

/-- C10: the position-1 element is deleted exactly when it is a basic
literal whose token is the exact string `"0"` (`isZeroLit`); any other
element — including other spellings of zero such as `0x0` or `00` — is
kept and rewritten into a `Port:`-keyed pair. -/
theorem netipv6zone_zero_deletion_exact :
    (∀ e : Expr, isZeroLit e = true ↔ e = .basicLit "0") ∧
    (∀ s, (s = "IPAddr" ∨ s = "UDPAddr" ∨ s = "TCPAddr") →
      ∀ (e0 e1 : Expr) (rest : List Expr),
        e0.isKV = false → e1.isKV = false →
        fixExpr e0 = (e0, false) → fixExpr e1 = (e1, false) →
        (∀ e ∈ rest, fixExpr e = (e, false)) →
        fixExpr (.compositeLit (netSel s) (e0 :: e1 :: rest))
          = (.compositeLit (netSel s)
              (.keyValueExpr (.ident "IP") e0 ::
                (if isZeroLit e1 then rest
                 else .keyValueExpr (.ident "Port") e1 :: rest)), true)) := by
  constructor
  · intro e
    cases e <;> simp [isZeroLit]
  · intro s hs e0 e1 rest h0 h1 hf0 hf1 hfix
    have hty := netAddr_name hs
    have hot := netAddr_fixOpt hty
    have hrest : fixList rest = (rest, false) := fixList_fixpoint hfix
    cases hz : isZeroLit e1 with
    | true => simp [fixExpr, hty, hot, fixAffectedElts, h0, h1, hz, hf0, hrest]
    | false => simp [fixExpr, hty, hot, fixAffectedElts, h0, h1, hz, hf0, hf1, hrest]

/-- Witness for C10: `net.TCPAddr{a, 0x0}` keeps its second element as a
`Port:` pair, while `net.TCPAddr{a, 0}` drops it. -/
theorem netipv6zone_zero_deletion_exact_witness :
    (isZeroLit (.basicLit "0x0") = true ↔ (.basicLit "0x0" : Expr) = .basicLit "0") ∧
    fixExpr (.compositeLit (netSel "TCPAddr") [.ident "a", .basicLit "0x0"])
      = (.compositeLit (netSel "TCPAddr")
          (.keyValueExpr (.ident "IP") (.ident "a") ::
            (if isZeroLit (.basicLit "0x0") then ([] : List Expr)
             else [.keyValueExpr (.ident "Port") (.basicLit "0x0")])), true) ∧
    fixExpr (.compositeLit (netSel "TCPAddr") [.ident "a", .basicLit "0"])
      = (.compositeLit (netSel "TCPAddr")
          (.keyValueExpr (.ident "IP") (.ident "a") ::
            (if isZeroLit (.basicLit "0") then ([] : List Expr)
             else [.keyValueExpr (.ident "Port") (.basicLit "0")])), true) :=
  ⟨netipv6zone_zero_deletion_exact.1 (.basicLit "0x0"),
   netipv6zone_zero_deletion_exact.2 "TCPAddr" (Or.inr (Or.inr rfl))
     (.ident "a") (.basicLit "0x0") [] (by simp [Expr.isKV]) (by simp [Expr.isKV])
     (by simp [fixExpr]) (by simp [fixExpr]) (by simp),
   netipv6zone_zero_deletion_exact.2 "TCPAddr" (Or.inr (Or.inr rfl))
     (.ident "a") (.basicLit "0") [] (by simp [Expr.isKV]) (by simp [Expr.isKV])
     (by simp [fixExpr]) (by simp [fixExpr]) (by simp)⟩

/-- Counterexample to C3: the literal `net.IPAddr{a, Port: 5}` contains a
key/value element (at position 1), yet the transform does not leave it
untouched — position 0 is still rewritten to `IP: a` and the transform
reports `true`.  Rewriting only stops at the first key/value element. -/
theorem netipv6zone_mixed_literal_rewritten :
    netipv6zone mixedLitFile
      = (⟨["net"],
          [.compositeLit (netSel "IPAddr")
            [.keyValueExpr (.ident "IP") (.ident "a"),
             .keyValueExpr (.ident "Port") (.basicLit "5")]]⟩, true) ∧
    (netipv6zone mixedLitFile).1 ≠ mixedLitFile := by
  constructor
  · simp [netipv6zone, Imports, mixedLitFile, netSel, fixList, fixExpr, fixOpt,
      fixAffectedElts, isNetAddrType, IsTopName, isZeroLit, Expr.isKV]
  · simp [netipv6zone, Imports, mixedLitFile, netSel, fixList, fixExpr, fixOpt,
      fixAffectedElts, isNetAddrType, IsTopName, isZeroLit, Expr.isKV]

/-- C3 (amended): the element loop stops at the first key/value element
before rewriting anything at or after it; hence an affected literal whose
first element is already a key/value pair is left completely untouched
(and contributes no change flag). -/
theorem netipv6zone_keyed_head_untouched :
    ∀ s, (s = "IPAddr" ∨ s = "UDPAddr" ∨ s = "TCPAddr") →
    ∀ (k v : Expr) (rest : List Expr),
      (∀ e ∈ Expr.keyValueExpr k v :: rest, fixExpr e = (e, false)) →
      fixExpr (.compositeLit (netSel s) (.keyValueExpr k v :: rest))
        = (.compositeLit (netSel s) (.keyValueExpr k v :: rest), false) := by
  intro s hs k v rest hfix
  have hty := netAddr_name hs
  have hot := netAddr_fixOpt hty
  have hl : fixList (Expr.keyValueExpr k v :: rest)
      = (Expr.keyValueExpr k v :: rest, false) := fixList_fixpoint hfix
  simp [fixExpr, hty, hot, fixAffectedElts, isKV_kv, hl]

/-- Witness for the amended C3: `net.TCPAddr{Port: 1, z}` is untouched. -/
theorem netipv6zone_keyed_head_untouched_witness :
    fixExpr (.compositeLit (netSel "TCPAddr")
        [.keyValueExpr (.ident "Port") (.basicLit "1"), .ident "z"])
      = (.compositeLit (netSel "TCPAddr")
          [.keyValueExpr (.ident "Port") (.basicLit "1"), .ident "z"], false) :=
  netipv6zone_keyed_head_untouched "TCPAddr" (Or.inr (Or.inr rfl))
    (.ident "Port") (.basicLit "1") [.ident "z"] (by simp [fixExpr])

/-- C6: all changes are confined to composite literals whose declared type
is the qualified `net.IPAddr`/`net.UDPAddr`/`net.TCPAddr`: a run relates
input and output declarations by the frame relation `OnlyAffectedList`
(every node other than such a literal keeps its constructor, atoms and
children pointwise, and imports are untouched), and a tree containing no
affected literal at all is returned entirely unchanged. -/
theorem netipv6zone_frame :
    (∀ f : File, (netipv6zone f).1.imports = f.imports ∧
      OnlyAffectedList f.decls (netipv6zone f).1.decls) ∧
    (∀ e : Expr, hasNetLit e = false → fixExpr e = (e, false)) := by
  constructor
  · intro f
    cases hI : Imports f "net" with
    | false =>
      refine ⟨by simp [netipv6zone, hI], ?_⟩
      simpa [netipv6zone, hI] using OnlyAffected_refl.2.2.1 f.decls
    | true =>
      refine ⟨by simp [netipv6zone, hI], ?_⟩
      simpa [netipv6zone, hI] using fix_frame.2.2.1 f.decls
  · exact hasNetLit_false_fix.1

/-- Witness for C6 at a tree with a composite literal of a non-`net`
type: `g(other.IPAddr{x})` is unchanged. -/
theorem netipv6zone_frame_witness :
    hasNetLit (.callExpr (.ident "g")
        [.compositeLit (some (.selectorExpr (.ident "other") "IPAddr"))
          [.ident "x"]]) = false ∧
    fixExpr (.callExpr (.ident "g")
        [.compositeLit (some (.selectorExpr (.ident "other") "IPAddr"))
          [.ident "x"]])
      = (.callExpr (.ident "g")
          [.compositeLit (some (.selectorExpr (.ident "other") "IPAddr"))
            [.ident "x"]], false) :=
  ⟨by simp [hasNetLit, hasNetLitList, hasNetLitOpt, isNetAddrType, IsTopName],
   netipv6zone_frame.2 _
     (by simp [hasNetLit, hasNetLitList, hasNetLitOpt, isNetAddrType, IsTopName])⟩

/-- C7: the transform is deterministic — every run realizes the rewrite
relation `FileRw`, and the relation is a function: two runs on the same
input produce the same resulting tree and the same flag. -/
theorem netipv6zone_deterministic :
    (∀ f : File, FileRw f (netipv6zone f)) ∧
    (∀ (f : File) (r₁ r₂ : File × Bool), FileRw f r₁ → FileRw f r₂ → r₁ = r₂) := by
  refine ⟨FileRw_total, fun f r₁ r₂ h₁ h₂ => ?_⟩
  rw [FileRw_function h₁, FileRw_function h₂]

/-- Witness for C7: two runs on a concrete file coincide. -/
theorem netipv6zone_deterministic_witness :
    netipv6zone ⟨["net"], [.ident "w"]⟩ = netipv6zone ⟨["net"], [.ident "w"]⟩ ∧
    FileRw ⟨["net"], [.ident "w"]⟩ (netipv6zone ⟨["net"], [.ident "w"]⟩) :=
  ⟨netipv6zone_deterministic.2 _ _ _
      (netipv6zone_deterministic.1 ⟨["net"], [.ident "w"]⟩)
      (netipv6zone_deterministic.1 ⟨["net"], [.ident "w"]⟩),
    netipv6zone_deterministic.1 ⟨["net"], [.ident "w"]⟩⟩

/-- C8: whenever at least one requested name is not registered, `select`
fails with an `UnknownFixError` whose payload enumerates exactly the
unrecognized names — all of them, not only the first; in particular
requesting `real, bogus1, bogus2` against a registry holding only `real`
reports both `bogus1` and `bogus2`. -/
theorem selectFixes_unknown_enumerates :
    (∀ (registered : List Fix) (names : List String),
      (∃ n ∈ names, ∀ fx ∈ registered, fx.name ≠ n) →
      ∃ bad, selectFixes registered names = Except.error bad ∧
        ∀ n, n ∈ bad ↔ n ∈ names ∧ ∀ fx ∈ registered, fx.name ≠ n) ∧
    selectFixes [⟨"real", "2012-11-26", netipv6zone, "d"⟩]
        ["real", "bogus1", "bogus2"]
      = Except.error ["bogus1", "bogus2"] := by
  constructor
  · intro registered names h
    obtain ⟨n₀, hn₀, hreg⟩ := h
    have hmem : n₀ ∈ names.filter fun n => !registered.any fun fx => fx.name == n := by
      rw [List.mem_filter]
      refine ⟨hn₀, ?_⟩
      simp only [Bool.not_eq_true', List.any_eq_false]
      intro fx hfx
      simpa using hreg fx hfx
    have hne : (names.filter fun n => !registered.any fun fx => fx.name == n).isEmpty
        = false := by
      rcases hh : names.filter fun n => !registered.any fun fx => fx.name == n with
        _ | ⟨a, l⟩
      · rw [hh] at hmem; simp at hmem
      · simp
    refine ⟨names.filter fun n => !registered.any fun fx => fx.name == n, ?_, ?_⟩
    · simp [selectFixes, hne]
    · intro n
      rw [List.mem_filter]
      simp [List.any_eq_false]
  · simp [selectFixes, List.filter]

/-- Witness for C8 at the spec's example selection. -/
theorem selectFixes_unknown_enumerates_witness :
    ∃ bad,
      selectFixes [⟨"real", "2012-11-26", netipv6zone, "d"⟩]
          ["real", "bogus1", "bogus2"]
        = Except.error bad ∧
      ∀ n, n ∈ bad ↔ n ∈ ["real", "bogus1", "bogus2"] ∧
        ∀ fx ∈ [(⟨"real", "2012-11-26", netipv6zone, "d"⟩ : Fix)], fx.name ≠ n :=
  selectFixes_unknown_enumerates.1 _ _
    ⟨"bogus1", by simp, by simp⟩

end NetFix
